import Mathlib

/-!
Shallow embedding of the attendance backend (src/main.py, src/schemas.py).

The token authority hashes the canonical string `member_id:action:timeslice`
with HMAC-SHA256 and base64url-encodes the digest.  The cryptographic
pipeline (`hmac.new(...).digest()` followed by `base64.urlsafe_b64encode`)
is modelled symbolically: it is a parameter `mac : String → String → String`
taking the key and the message, with collision-freedom (injectivity) assumed
explicitly in the theorems that need it.  Everything else is translated
directly from the source.

Timestamps are modelled as integer unix seconds (`Nat`; the source obtains
them from `datetime.now(timezone.utc)`, which is never before the epoch).
Window indices are `Int` because the verifier computes `current_slice - 1`,
which can be negative in Python.
-/

namespace Attendance

/-! ### Groundwork: decimal rendering of numbers

Python renders the window index with `f"{ts}"`, i.e. decimal notation; the
Lean embedding renders it with `toString : Int → String`, which is built on
`Nat.repr`/`Nat.toDigitsCore`.  The claims about token binding and expiry
need three facts about this rendering: its characters are decimal digits
(so never `:`), it is injective, and it is ASCII. -/

/-- The ten decimal digit characters. -/
def digitChars : List Char := ['0', '1', '2', '3', '4', '5', '6', '7', '8', '9']

/-- Reference decimal rendering of a natural number, most significant digit
first; used to reason about `Nat.repr`. -/
def decDigits (n : Nat) : List Char :=
  if _h : n < 10 then [Nat.digitChar n]
  else decDigits (n / 10) ++ [Nat.digitChar (n % 10)]
termination_by n
decreasing_by exact Nat.div_lt_self (by omega) (by omega)

/-- Numeric value of a digit string, used to invert `decDigits`. -/
def decVal (cs : List Char) : Nat :=
  cs.foldl (fun a c => 10 * a + (c.toNat - 48)) 0

theorem digitChar_mem (m : Nat) (h : m < 10) : Nat.digitChar m ∈ digitChars := by
  interval_cases m <;> decide

theorem digitChar_toNat (m : Nat) (h : m < 10) : (Nat.digitChar m).toNat = 48 + m := by
  interval_cases m <;> decide

theorem decVal_decDigits (n : Nat) : decVal (decDigits n) = n := by
  induction n using Nat.strong_induction_on with
  | _ n ih =>
    rw [decDigits]
    split
    · next h =>
      simp [decVal, decVal, List.foldl, digitChar_toNat n h]
    · next h =>
      have h10 : 10 ≤ n := by omega
      have hlt : n / 10 < n := Nat.div_lt_self (by omega) (by omega)
      have hm : n % 10 < 10 := Nat.mod_lt n (by omega)
      have ihv := ih (n / 10) hlt
      simp only [decVal, List.foldl_append, List.foldl] at *
      rw [ihv, digitChar_toNat (n % 10) hm]
      have := Nat.div_add_mod n 10
      omega

theorem decDigits_subset (n : Nat) : ∀ c ∈ decDigits n, c ∈ digitChars := by
  induction n using Nat.strong_induction_on with
  | _ n ih =>
    rw [decDigits]
    split
    · next h =>
      intro c hc
      simp only [List.mem_singleton] at hc
      exact hc ▸ digitChar_mem n h
    · next h =>
      intro c hc
      have hlt : n / 10 < n := Nat.div_lt_self (by omega) (by omega)
      rcases List.mem_append.mp hc with h1 | h2
      · exact ih (n / 10) hlt c h1
      · simp only [List.mem_singleton] at h2
        exact h2 ▸ digitChar_mem (n % 10) (Nat.mod_lt n (by omega))

theorem decDigits_inj {a b : Nat} (h : decDigits a = decDigits b) : a = b := by
  have ha := decVal_decDigits a
  rw [h, decVal_decDigits] at ha
  omega

theorem toDigitsCore_eq_decDigits :
    ∀ (fuel n : Nat) (ds : List Char), n < fuel →
      Nat.toDigitsCore 10 fuel n ds = decDigits n ++ ds := by
  intro fuel
  induction fuel with
  | zero => intro n ds h; omega
  | succ f ih =>
    intro n ds h
    simp only [Nat.toDigitsCore]
    split
    · next hz =>
      have hlt : n < 10 := by omega
      rw [decDigits]
      simp [hlt, Nat.mod_eq_of_lt hlt]
    · next hz =>
      have h10 : 10 ≤ n := by omega
      have hstep : decDigits n = decDigits (n / 10) ++ [Nat.digitChar (n % 10)] := by
        rw [decDigits]
        simp only [dif_neg (by omega : ¬ n < 10)]
      rw [ih (n / 10) (Nat.digitChar (n % 10) :: ds) (by omega), hstep]
      simp

theorem natRepr_eq_decDigits (n : Nat) : Nat.repr n = (decDigits n).asString := by
  unfold Nat.repr Nat.toDigits
  rw [toDigitsCore_eq_decDigits (n + 1) n [] (by omega)]
  simp

theorem natRepr_data (n : Nat) : (Nat.repr n).data = decDigits n := by
  rw [natRepr_eq_decDigits]
  rfl

theorem natRepr_inj {a b : Nat} (h : Nat.repr a = Nat.repr b) : a = b := by
  apply decDigits_inj
  rw [← natRepr_data, ← natRepr_data, h]

theorem natRepr_subset (n : Nat) : ∀ c ∈ (Nat.repr n).data, c ∈ digitChars := by
  rw [natRepr_data]
  exact decDigits_subset n

theorem intToString_ofNat (n : Nat) : toString (Int.ofNat n) = Nat.repr n := rfl

theorem intToString_negSucc (m : Nat) :
    toString (Int.negSucc m) = "-" ++ Nat.repr (m + 1) := rfl

theorem intToString_subset (i : Int) :
    ∀ c ∈ (toString i).data, c ∈ '-' :: digitChars := by
  cases i with
  | ofNat n =>
    intro c hc
    exact List.mem_cons_of_mem '-' (natRepr_subset n c (by rwa [intToString_ofNat] at hc))
  | negSucc m =>
    intro c hc
    rw [intToString_negSucc, String.data_append] at hc
    rcases List.mem_append.mp hc with h1 | h2
    · simp only [show ("-" : String).data = ['-'] from rfl, List.mem_singleton] at h1
      exact h1 ▸ List.mem_cons_self '-' digitChars
    · exact List.mem_cons_of_mem '-' (natRepr_subset (m + 1) c h2)

theorem intToString_inj {i j : Int} (h : toString i = toString j) : i = j := by
  cases i with
  | ofNat n =>
    cases j with
    | ofNat m =>
      rw [intToString_ofNat, intToString_ofNat] at h
      exact congrArg Int.ofNat (natRepr_inj h)
    | negSucc m =>
      rw [intToString_ofNat, intToString_negSucc] at h
      have hd : (Nat.repr n).data = '-' :: (Nat.repr (m + 1)).data := by
        rw [h, String.data_append]
        rfl
      have hm : '-' ∈ (Nat.repr n).data := by rw [hd]; exact List.mem_cons_self _ _
      have := natRepr_subset n '-' hm
      simp [digitChars] at this
  | negSucc n =>
    cases j with
    | ofNat m =>
      rw [intToString_negSucc, intToString_ofNat] at h
      have hd : (Nat.repr m).data = '-' :: (Nat.repr (n + 1)).data := by
        rw [← h, String.data_append]
        rfl
      have hm : '-' ∈ (Nat.repr m).data := by rw [hd]; exact List.mem_cons_self _ _
      have := natRepr_subset m '-' hm
      simp [digitChars] at this
    | negSucc m =>
      rw [intToString_negSucc, intToString_negSucc] at h
      have hd := congrArg String.data h
      rw [String.data_append, String.data_append] at hd
      have : (Nat.repr (n + 1)).data = (Nat.repr (m + 1)).data :=
        List.append_cancel_left hd
      have hnm : n + 1 = m + 1 := natRepr_inj (String.ext this)
      exact congrArg Int.negSucc (by omega)

theorem intToString_colon_free (i : Int) : ∀ c ∈ (toString i).data, c ≠ ':' := by
  intro c hc
  have hmem := intToString_subset i c hc
  fin_cases hmem <;> decide

/-- A string is ASCII when every character has code point below 128; this is
the condition `hmac.compare_digest` places on `str` arguments. -/
def isAsciiStr (s : String) : Bool := s.data.all (fun c => c.toNat < 128)

theorem intToString_ascii (i : Int) : isAsciiStr (toString i) = true := by
  simp only [isAsciiStr, List.all_eq_true]
  intro c hc
  have hmem := intToString_subset i c hc
  fin_cases hmem <;> decide

theorem str_append_cancel_left {s a b : String} (h : s ++ a = s ++ b) : a = b := by
  have hd := congrArg String.data h
  rw [String.data_append, String.data_append] at hd
  exact String.ext (List.append_cancel_left hd)

/-- Splitting a list at a separator character is unambiguous when the parts
before the separator are separator-free. -/
theorem split_at_sep {sep : Char} :
    ∀ (r1 r2 u v : List Char), (∀ c ∈ r1, c ≠ sep) → (∀ c ∈ r2, c ≠ sep) →
      r1 ++ sep :: u = r2 ++ sep :: v → r1 = r2 ∧ u = v := by
  intro r1
  induction r1 with
  | nil =>
    intro r2 u v _ h2 h
    cases r2 with
    | nil => simpa using h
    | cons d ds =>
      simp only [List.nil_append, List.cons_append, List.cons.injEq] at h
      exact absurd h.1.symm (h2 d (List.mem_cons_self d ds))
  | cons c cs ih =>
    intro r2 u v h1 h2 h
    cases r2 with
    | nil =>
      simp only [List.cons_append, List.nil_append, List.cons.injEq] at h
      exact absurd h.1 (h1 c (List.mem_cons_self c cs))
    | cons d ds =>
      simp only [List.cons_append, List.cons.injEq] at h
      obtain ⟨hcd, htail⟩ := h
      have := ih ds u v (fun x hx => h1 x (List.mem_cons_of_mem c hx))
        (fun x hx => h2 x (List.mem_cons_of_mem d hx)) htail
      exact ⟨by rw [hcd, this.1], this.2⟩

/-! ### The canonical token message

`generate_token` and `verify_token` both build the canonical string
`f"{member_id}:{action}:{ts}"` (src/main.py lines 123 and 133). -/

/-- The canonical message string `member_id:action:ts` that the MAC is
computed over. -/
def message (member_id action : String) (ts : Int) : String :=
  member_id ++ ":" ++ action ++ ":" ++ toString ts

theorem message_data (mid act : String) (ts : Int) :
    (message mid act ts).data =
      mid.data ++ ':' :: (act.data ++ ':' :: (toString ts).data) := by
  simp [message, String.data_append, show (":" : String).data = [':'] from rfl]

/-- Two canonical messages with the same action agree only if the member
identifier and the window index both agree: the window index renders with no
`:` character, so the rightmost `:` splits the string unambiguously. -/
theorem message_inj_same_act {m1 m2 act : String} {ts1 ts2 : Int}
    (h : message m1 act ts1 = message m2 act ts2) : m1 = m2 ∧ ts1 = ts2 := by
  have hd := congrArg String.data h
  rw [message_data, message_data] at hd
  have hrev := congrArg List.reverse hd
  simp only [List.reverse_append, List.reverse_cons, List.append_assoc,
    List.singleton_append] at hrev
  have hsplit := split_at_sep _ _ _ _
    (fun c hc => intToString_colon_free ts1 c (List.mem_reverse.mp hc))
    (fun c hc => intToString_colon_free ts2 c (List.mem_reverse.mp hc)) hrev
  obtain ⟨hts, hrest⟩ := hsplit
  have hm : m1.data.reverse = m2.data.reverse := by
    have := List.append_cancel_left hrest
    simpa using this
  have hts2 : toString ts1 = toString ts2 :=
    String.ext (by simpa using congrArg List.reverse hts)
  exact ⟨String.ext (by simpa using congrArg List.reverse hm), intToString_inj hts2⟩

/-- Messages for the two distinct actions never coincide for the same member. -/
theorem message_IN_OUT_ne (m : String) (ts1 ts2 : Int) :
    message m "IN" ts1 ≠ message m "OUT" ts2 := by
  intro h
  have hd := congrArg String.data h
  rw [message_data, message_data] at hd
  have hc := List.append_cancel_left hd
  simp [show ("IN" : String).data = ['I', 'N'] from rfl,
        show ("OUT" : String).data = ['O', 'U', 'T'] from rfl] at hc

theorem message_ascii {mid act : String} (h1 : isAsciiStr mid = true)
    (h2 : isAsciiStr act = true) (ts : Int) :
    isAsciiStr (message mid act ts) = true := by
  simp only [isAsciiStr, List.all_eq_true, decide_eq_true_eq] at *
  intro c hc
  rw [message_data] at hc
  rcases List.mem_append.mp hc with h | h
  · exact h1 c h
  · rcases List.mem_cons.mp h with h | h
    · subst h; decide
    · rcases List.mem_append.mp h with h | h
      · exact h2 c h
      · rcases List.mem_cons.mp h with h | h
        · subst h; decide
        · have ha := intToString_ascii ts
          simp only [isAsciiStr, List.all_eq_true, decide_eq_true_eq] at ha
          exact ha c h

/-! ### Window-index arithmetic

The window index is `int(now.timestamp()) // TOKEN_WINDOW_SECONDS`
(src/main.py lines 122 and 131); timestamps are nonnegative, so Python floor
division coincides with `Nat` division. -/

theorem slice_window {W t t' : Nat} (hW : 0 < W) (h1 : t ≤ t') (h2 : t' < t + W) :
    t' / W = t / W ∨ t' / W = t / W + 1 := by
  have lo : t / W ≤ t' / W := Nat.div_le_div_right h1
  have hi : t' / W < t / W + 2 := by
    rw [Nat.div_lt_iff_lt_mul hW]
    have hdm := Nat.div_add_mod t W
    have hm : t % W < W := Nat.mod_lt t hW
    have : (t / W + 2) * W = W * (t / W) + 2 * W := by ring
    omega
  omega

theorem slice_expired {W t t'' : Nat} (hW : 0 < W) (h : t + 2 * W ≤ t'') :
    t / W + 2 ≤ t'' / W := by
  rw [Nat.le_div_iff_mul_le hW]
  have hdm := Nat.div_add_mod t W
  have hm : t % W < W := Nat.mod_lt t hW
  have : (t / W + 2) * W = W * (t / W) + 2 * W := by ring
  omega

/-! ### Error model -/

/-- Outcome of a failed request: `http status detail` models
`HTTPException(status_code=status, detail=detail)`; `typeError` models a
Python `TypeError` escaping the handler (surfacing as HTTP 500). -/
inductive ApiError where
  | http (status : Nat) (detail : String)
  | typeError
deriving Repr, DecidableEq

/-- The default shared secret, `SECRET = os.getenv("QR_SECRET", "dev-secret")`. -/
def SECRET : String := "dev-secret"

/-- The window size, `TOKEN_WINDOW_SECONDS = 10` (src/main.py line 114). -/
def TOKEN_WINDOW_SECONDS : Nat := 10

/-! ### Token authority (src/main.py lines 117-138) -/

/-- Model of `generate_token` (src/main.py lines 117-126).  The shared secret and the
window size are module configuration in the source (`SECRET`,
`TOKEN_WINDOW_SECONDS`), passed here explicitly; `mac` abstracts the
HMAC-SHA256-and-base64url pipeline (see the file header); `now` is the
explicit clock in unix seconds. -/
def generate_token (mac : String → String → String) (secret : String) (W : Nat)
    (member_id action : String) (now : Nat) : Except ApiError String :=
  if action ≠ "IN" ∧ action ≠ "OUT" then
    Except.error (ApiError.http 400 "Invalid action")
  else
    Except.ok (mac secret (message member_id action (((now / W : Nat) : Int))))

/-- Python `hmac.compare_digest` on `str` arguments: both strings must be
ASCII-only, otherwise it raises `TypeError`; on ASCII strings it decides
equality (its constant-time execution is not modelled). -/
def compare_digest (a b : String) : Except ApiError Bool :=
  if isAsciiStr a && isAsciiStr b then Except.ok (a == b)
  else Except.error ApiError.typeError

/-- Model of `verify_token` (src/main.py lines 129-138) with the wall clock passed
explicitly.  The two-iteration loop `for ts in (current_slice,
current_slice - 1)` is unrolled; the window index is `Int` because
`current_slice - 1` is `-1` in Python when `now < W`. -/
def verify_token (mac : String → String → String) (secret : String) (W : Nat)
    (member_id action token : String) (now : Nat) : Except ApiError Bool :=
  match compare_digest
      (mac secret (message member_id action (((now / W : Nat) : Int)))) token with
  | Except.error e => Except.error e
  | Except.ok true => Except.ok true
  | Except.ok false =>
    match compare_digest
        (mac secret (message member_id action (((now / W : Nat) : Int) - 1))) token with
    | Except.error e => Except.error e
    | Except.ok true => Except.ok true
    | Except.ok false => Except.ok false

/-! ### Storage model

`database.py` (the storage collaborator) is not among the given sources; the
stored records and the collection operations are modelled from the spec (§3
data model, §6 storage collaborator) and standard MongoDB behaviour. -/

/-- Unix-seconds timestamp. -/
abbrev Time := Nat

/-- Modelled from the spec: a stored `member` document (schemas.py `Member`,
plus the bookkeeping fields written by `create_member`). -/
structure MemberDoc where
  name : String
  present : Bool
  last_in : Option Time
  last_out : Option Time
  created_at : Time
  updated_at : Time
deriving Repr, DecidableEq

/-- Modelled from the spec: a stored `attendance` document (schemas.py
`Attendance`, plus bookkeeping fields), exactly as inserted by `scan2`. -/
structure AttendanceDoc where
  member_id : String
  action : String
  timestamp : Time
  created_at : Time
  updated_at : Time
deriving Repr, DecidableEq

/-- Modelled from the spec: the two MongoDB collections; `member` documents
are keyed by their `_id` (a 24-character hex ObjectId string), `attendance`
documents are listed in insertion order. -/
structure DB where
  member : List (String × MemberDoc)
  attendance : List AttendanceDoc
deriving Repr, DecidableEq

/-- Modelled from the external `bson` library: `ObjectId(id_str)` succeeds
exactly on 24-character hexadecimal strings. -/
def isValidObjectId (s : String) : Bool :=
  s.length == 24 && s.data.all (fun c =>
    c.isDigit || ('a' ≤ c && c ≤ 'f') || ('A' ≤ c && c ≤ 'F'))

/-- Model of `oid` (src/main.py lines 31-35): validates the id or raises HTTP 400. -/
def oid (id_str : String) : Except ApiError String :=
  if isValidObjectId id_str then Except.ok id_str
  else Except.error (ApiError.http 400 "Invalid member id")

/-- Modelled from the spec: MongoDB `update_one` applies a `$set` update to
the first document matching the `_id` filter; matching no document is a
no-op, not an error. -/
def updateOneMember (l : List (String × MemberDoc)) (mid : String)
    (f : MemberDoc → MemberDoc) : List (String × MemberDoc) :=
  match l with
  | [] => []
  | (k, m) :: rest =>
    if k = mid then (k, f m) :: rest else (k, m) :: updateOneMember rest mid f

/-- The `$set` document built by `scan2` (src/main.py lines 206-210):
`updated_at` always, plus the per-action presence fields. -/
def applyScanUpdate (action : String) (now : Time) (m : MemberDoc) : MemberDoc :=
  if action = "IN" then
    { m with updated_at := now, present := true, last_in := some now }
  else
    { m with updated_at := now, present := false, last_out := some now }

/-- The request body of `POST /api/scan2` (src/main.py lines 175-178). -/
structure AttendanceScan2 where
  member_id : String
  action : String
  token : String

/-- Model of `scan2` (src/main.py lines 181-213), with the clock and the database
state made explicit.  The result pairs the HTTP outcome with the final
database state: MongoDB writes persist even when a later statement raises,
so an error result carries whatever was committed before the raise.  The two
`datetime.now` calls made during one request (one inside `verify_token`, one
for `now`) are modelled as the same instant. -/
def scan2 (mac : String → String → String) (secret : String) (W : Nat)
    (payload : AttendanceScan2) (now : Time) (db : DB) :
    Except ApiError String × DB :=
  if payload.action ≠ "IN" ∧ payload.action ≠ "OUT" then
    (Except.error (ApiError.http 400 "Invalid action"), db)
  else
    match verify_token mac secret W payload.member_id payload.action
        payload.token now with
    | Except.error e => (Except.error e, db)
    | Except.ok false =>
      (Except.error (ApiError.http 401 "Invalid or expired token"), db)
    | Except.ok true =>
      let att : AttendanceDoc :=
        { member_id := payload.member_id, action := payload.action,
          timestamp := now, created_at := now, updated_at := now }
      let db1 : DB := { db with attendance := db.attendance ++ [att] }
      match oid payload.member_id with
      | Except.error e => (Except.error e, db1)
      | Except.ok mid =>
        (Except.ok "ok",
         { db1 with
             member := updateOneMember db1.member mid
               (applyScanUpdate payload.action now) })

/-- Model of `member_attendance` (src/main.py lines 216-223): the member's
attendance records sorted by `timestamp` descending, then limited.
Modelled from pymongo cursor semantics: `.limit(0)` means *no limit*, so the
bound applies only to positive `limit` (the route declares `limit: int = 50`;
negative limits, which pymongo treats as a limited single batch, are outside
the model).  The final database state is returned alongside to express that
the handler performs no write. -/
def member_attendance (db : DB) (member_id : String) (limit : Nat) :
    List AttendanceDoc × DB :=
  let sorted := (db.attendance.filter (fun r => r.member_id == member_id)).mergeSort
      (fun a b => b.timestamp ≤ a.timestamp)
  (if limit = 0 then sorted else sorted.take limit, db)

/-! ### Helper lemmas about the storage model -/

theorem lookup_updateOneMember_self (l : List (String × MemberDoc)) (mid : String)
    (f : MemberDoc → MemberDoc) :
    List.lookup mid (updateOneMember l mid f) = (List.lookup mid l).map f := by
  induction l with
  | nil => rfl
  | cons p rest ih =>
    obtain ⟨k, m⟩ := p
    by_cases hk : k = mid
    · subst hk
      simp [updateOneMember, List.lookup]
    · have hb : (mid == k) = false := beq_eq_false_iff_ne.mpr (Ne.symm hk)
      simp [updateOneMember, hk, List.lookup, hb, ih]

theorem lookup_updateOneMember_other {k mid : String} (hne : k ≠ mid)
    (l : List (String × MemberDoc)) (f : MemberDoc → MemberDoc) :
    List.lookup k (updateOneMember l mid f) = List.lookup k l := by
  induction l with
  | nil => rfl
  | cons p rest ih =>
    obtain ⟨k', m⟩ := p
    by_cases hk : k' = mid
    · subst hk
      have hb : (k == k') = false := beq_eq_false_iff_ne.mpr hne
      simp [updateOneMember, List.lookup, hb]
    · simp [updateOneMember, hk, List.lookup, ih]

theorem updateOneMember_of_lookup_none {mid : String}
    {l : List (String × MemberDoc)} (h : List.lookup mid l = none)
    (f : MemberDoc → MemberDoc) : updateOneMember l mid f = l := by
  induction l with
  | nil => rfl
  | cons p rest ih =>
    obtain ⟨k, m⟩ := p
    by_cases hk : k = mid
    · have hb : (mid == k) = true := by rw [hk]; exact beq_self_eq_true mid
      simp only [List.lookup, hb] at h
      exact absurd h (Option.some_ne_none m)
    · have hb : (mid == k) = false := beq_eq_false_iff_ne.mpr (Ne.symm hk)
      have h' : List.lookup mid rest = none := by
        simp only [List.lookup, hb] at h
        exact h
      simp [updateOneMember, hk, ih h']

theorem isAsciiStr_append {a b : String} (h1 : isAsciiStr a = true)
    (h2 : isAsciiStr b = true) : isAsciiStr (a ++ b) = true := by
  simp only [isAsciiStr, String.data_append, List.all_append, Bool.and_eq_true] at *
  exact ⟨h1, h2⟩

/-- With the concrete MAC `fun k m => k ++ "#" ++ m` used to instantiate the
symbolic theorems, different keys give disjoint token ranges. -/
theorem concrete_mac_key_sep : ∀ m1 m2 : String,
    ("wrong" ++ "#" ++ m1) ≠ ("dev-secret" ++ "#" ++ m2) := by
  intro m1 m2 h
  have hd := congrArg String.data h
  simp only [String.data_append,
    show ("wrong" : String).data = ['w', 'r', 'o', 'n', 'g'] from rfl,
    show ("dev-secret" : String).data
      = ['d', 'e', 'v', '-', 's', 'e', 'c', 'r', 'e', 't'] from rfl,
    show ("#" : String).data = ['#'] from rfl] at hd
  simp at hd

/-- Evaluation of `verify_token` when both candidate tokens and the
presented token are ASCII (so `compare_digest` cannot raise): the result is
the disjunction of the two candidate comparisons. -/
theorem verify_token_eq_ok
    (mac : String → String → String) (secret : String) (W : Nat)
    (member_id action token : String) (now : Nat)
    (hA1 : isAsciiStr
      (mac secret (message member_id action (((now / W : Nat) : Int)))) = true)
    (hA2 : isAsciiStr
      (mac secret (message member_id action (((now / W : Nat) : Int) - 1))) = true)
    (hAt : isAsciiStr token = true) :
    verify_token mac secret W member_id action token now =
      Except.ok
        ((mac secret (message member_id action (((now / W : Nat) : Int))) == token) ||
         (mac secret (message member_id action (((now / W : Nat) : Int) - 1)) == token)) := by
  unfold verify_token compare_digest
  rw [hA1, hA2, hAt]
  cases hb1 : (mac secret (message member_id action (((now / W : Nat) : Int))) == token) <;>
    cases hb2 :
      (mac secret (message member_id action (((now / W : Nat) : Int) - 1)) == token) <;>
    simp only [Bool.and_self, if_true, hb1, hb2, Bool.or_self, Bool.false_or,
      Bool.or_false, Bool.true_or, Bool.or_true]

/-! ### Claims -/

/-- C1.  Round-trip validity: a token generated at `t` for any valid
`(memberId, action)` verifies true at every `t'` with `t ≤ t' < t + W`.
The ASCII hypothesis reflects that real tokens are base64url output. -/
theorem roundtrip_validity
    (mac : String → String → String) (secret member_id action : String)
    (W t t' : Nat) (hW : 0 < W)
    (ha : action = "IN" ∨ action = "OUT")
    (hA : ∀ ts : Int, isAsciiStr (mac secret (message member_id action ts)) = true)
    (h1 : t ≤ t') (h2 : t' < t + W) :
    ∃ tok, generate_token mac secret W member_id action t = Except.ok tok ∧
      verify_token mac secret W member_id action tok t' = Except.ok true := by
  refine ⟨mac secret (message member_id action (((t / W : Nat) : Int))), ?_, ?_⟩
  · rcases ha with h | h <;> simp [generate_token, h]
  · rw [verify_token_eq_ok mac secret W member_id action _ t' (hA _) (hA _) (hA _)]
    rcases slice_window hW h1 h2 with hs | hs
    · rw [hs]
      simp only [beq_self_eq_true, Bool.true_or]
    · have hslice : ((t' / W : Nat) : Int) - 1 = ((t / W : Nat) : Int) := by
        rw [hs, Int.ofNat_add, Int.ofNat_one]
        ring
      rw [hslice]
      simp only [beq_self_eq_true, Bool.or_true]

/-- Witness for C1 at the spec §8 scenario: `t = 1000`, verification at
`t' = 1005`, window 10. -/
theorem roundtrip_validity_witness :
    ∃ tok, generate_token (fun _ _ => "tok") "dev-secret" 10 "m1" "IN" 1000
        = Except.ok tok ∧
      verify_token (fun _ _ => "tok") "dev-secret" 10 "m1" "IN" tok 1005
        = Except.ok true :=
  roundtrip_validity (fun _ _ => "tok") "dev-secret" "m1" "IN" 10 1000 1005
    (by decide) (Or.inl rfl) (fun _ => rfl) (by decide) (by decide)

/-- C2.  Hard expiry: a token generated at `t` verifies false at every
`t'' ≥ t + 2W`, assuming the MAC is collision-free under the shared secret
(the symbolic-crypto reading of HMAC-SHA256). -/
theorem hard_expiry
    (mac : String → String → String) (secret member_id action : String)
    (W t t'' : Nat) (hW : 0 < W)
    (ha : action = "IN" ∨ action = "OUT")
    (hinj : ∀ m1 m2 : String, mac secret m1 = mac secret m2 → m1 = m2)
    (hA : ∀ ts : Int, isAsciiStr (mac secret (message member_id action ts)) = true)
    (h : t + 2 * W ≤ t'') :
    ∃ tok, generate_token mac secret W member_id action t = Except.ok tok ∧
      verify_token mac secret W member_id action tok t'' = Except.ok false := by
  refine ⟨mac secret (message member_id action (((t / W : Nat) : Int))), ?_, ?_⟩
  · rcases ha with h' | h' <;> simp [generate_token, h']
  · have hexp := slice_expired hW h
    have hne1 : mac secret (message member_id action (((t'' / W : Nat) : Int))) ≠
        mac secret (message member_id action (((t / W : Nat) : Int))) := by
      intro hceq
      have hts := (message_inj_same_act (hinj _ _ hceq)).2
      omega
    have hne2 : mac secret (message member_id action (((t'' / W : Nat) : Int) - 1)) ≠
        mac secret (message member_id action (((t / W : Nat) : Int))) := by
      intro hceq
      have hts := (message_inj_same_act (hinj _ _ hceq)).2
      omega
    have hb1 := beq_eq_false_iff_ne.mpr hne1
    have hb2 := beq_eq_false_iff_ne.mpr hne2
    rw [verify_token_eq_ok mac secret W member_id action _ t'' (hA _) (hA _) (hA _)]
    rw [hb1, hb2]
    rfl

/-- Witness for C2 at the spec §8 scenario: token from `t = 1000` rejected
at `t'' = 1025` (window 10, so `t + 2W = 1020 ≤ 1025`). -/
theorem hard_expiry_witness :
    ∃ tok, generate_token (fun _ m => m) "dev-secret" 10 "m1" "IN" 1000
        = Except.ok tok ∧
      verify_token (fun _ m => m) "dev-secret" 10 "m1" "IN" tok 1025
        = Except.ok false :=
  hard_expiry (fun _ m => m) "dev-secret" "m1" "IN" 10 1000 1025 (by decide)
    (Or.inl rfl) (fun _ _ h => h)
    (fun ts => message_ascii (by decide) (by decide) ts) (by decide)

/-- Messages for two distinct valid actions never coincide for one member. -/
theorem message_ne_of_act {m a1 a2 : String}
    (h1 : a1 = "IN" ∨ a1 = "OUT") (h2 : a2 = "IN" ∨ a2 = "OUT")
    (hne : a1 ≠ a2) (ts1 ts2 : Int) :
    message m a1 ts1 ≠ message m a2 ts2 := by
  rcases h1 with h1 | h1 <;> rcases h2 with h2 | h2 <;> subst h1 <;> subst h2
  · exact absurd rfl hne
  · exact message_IN_OUT_ne m ts1 ts2
  · intro h
    exact message_IN_OUT_ne m ts2 ts1 h.symm
  · exact absurd rfl hne

/-- C3.  Binding: a token generated for `(memberA, action, secret)` verifies
false under the other action, under another memberId, and under another
secret (assuming the MAC is collision-free and keys give disjoint ranges),
and in each mismatched case `verify` returns `false` without throwing. -/
theorem token_binding
    (mac : String → String → String)
    (secret secret2 memberA memberB action action2 : String)
    (W t : Nat) (_hW : 0 < W)
    (ha : action = "IN" ∨ action = "OUT")
    (ha2 : action2 = "IN" ∨ action2 = "OUT")
    (hane : action ≠ action2)
    (hmne : memberB ≠ memberA)
    (hinj : ∀ m1 m2 : String, mac secret m1 = mac secret m2 → m1 = m2)
    (hkey : ∀ m1 m2 : String, mac secret2 m1 ≠ mac secret m2)
    (hA1 : ∀ ts : Int, isAsciiStr (mac secret (message memberA action ts)) = true)
    (hA2 : ∀ ts : Int, isAsciiStr (mac secret (message memberA action2 ts)) = true)
    (hA3 : ∀ ts : Int, isAsciiStr (mac secret (message memberB action ts)) = true)
    (hA4 : ∀ ts : Int, isAsciiStr (mac secret2 (message memberA action ts)) = true) :
    ∃ tok, generate_token mac secret W memberA action t = Except.ok tok ∧
      verify_token mac secret W memberA action2 tok t = Except.ok false ∧
      verify_token mac secret W memberB action tok t = Except.ok false ∧
      verify_token mac secret2 W memberA action tok t = Except.ok false := by
  refine ⟨mac secret (message memberA action ((t / W : Nat) : Int)), ?_, ?_, ?_, ?_⟩
  · rcases ha with h | h <;> simp [generate_token, h]
  · rw [verify_token_eq_ok mac secret W memberA action2 _ t (hA2 _) (hA2 _) (hA1 _)]
    have hne1 : mac secret (message memberA action2 ((t / W : Nat) : Int)) ≠
        mac secret (message memberA action ((t / W : Nat) : Int)) := fun hc =>
      message_ne_of_act ha2 ha (Ne.symm hane) _ _ (hinj _ _ hc)
    have hne2 : mac secret (message memberA action2 (((t / W : Nat) : Int) - 1)) ≠
        mac secret (message memberA action ((t / W : Nat) : Int)) := fun hc =>
      message_ne_of_act ha2 ha (Ne.symm hane) _ _ (hinj _ _ hc)
    rw [beq_eq_false_iff_ne.mpr hne1, beq_eq_false_iff_ne.mpr hne2]
    rfl
  · rw [verify_token_eq_ok mac secret W memberB action _ t (hA3 _) (hA3 _) (hA1 _)]
    have hne1 : mac secret (message memberB action ((t / W : Nat) : Int)) ≠
        mac secret (message memberA action ((t / W : Nat) : Int)) := fun hc =>
      hmne (message_inj_same_act (hinj _ _ hc)).1
    have hne2 : mac secret (message memberB action (((t / W : Nat) : Int) - 1)) ≠
        mac secret (message memberA action ((t / W : Nat) : Int)) := fun hc =>
      hmne (message_inj_same_act (hinj _ _ hc)).1
    rw [beq_eq_false_iff_ne.mpr hne1, beq_eq_false_iff_ne.mpr hne2]
    rfl
  · rw [verify_token_eq_ok mac secret2 W memberA action _ t (hA4 _) (hA4 _) (hA1 _)]
    rw [beq_eq_false_iff_ne.mpr (hkey _ _), beq_eq_false_iff_ne.mpr (hkey _ _)]
    rfl

/-- Witness for C3: concrete injective MAC `k ++ "#" ++ m`, member `m1`
versus `m2`, action `IN` versus `OUT`, secret `dev-secret` versus `wrong`. -/
theorem token_binding_witness :
    ∃ tok, generate_token (fun k m => k ++ "#" ++ m) "dev-secret" 10 "m1" "IN" 1000
        = Except.ok tok ∧
      verify_token (fun k m => k ++ "#" ++ m) "dev-secret" 10 "m1" "OUT" tok 1000
        = Except.ok false ∧
      verify_token (fun k m => k ++ "#" ++ m) "dev-secret" 10 "m2" "IN" tok 1000
        = Except.ok false ∧
      verify_token (fun k m => k ++ "#" ++ m) "wrong" 10 "m1" "IN" tok 1000
        = Except.ok false :=
  token_binding (fun k m => k ++ "#" ++ m) "dev-secret" "wrong" "m1" "m2" "IN" "OUT"
    10 1000 (by decide) (Or.inl rfl) (Or.inr rfl) (by decide) (by decide)
    (fun m1 m2 h => str_append_cancel_left h)
    concrete_mac_key_sep
    (fun ts => isAsciiStr_append (by decide) (message_ascii (by decide) (by decide) ts))
    (fun ts => isAsciiStr_append (by decide) (message_ascii (by decide) (by decide) ts))
    (fun ts => isAsciiStr_append (by decide) (message_ascii (by decide) (by decide) ts))
    (fun ts => isAsciiStr_append (by decide) (message_ascii (by decide) (by decide) ts))

/-- Evaluation of `scan2` on the accepted path: valid action, verifying
token, valid ObjectId.  The event is appended and the `$set` update is
applied to the member collection. -/
theorem scan2_ok
    (mac : String → String → String) (secret : String) (W : Nat)
    (payload : AttendanceScan2) (now : Time) (db : DB)
    (ha : payload.action = "IN" ∨ payload.action = "OUT")
    (hver : verify_token mac secret W payload.member_id payload.action
      payload.token now = Except.ok true)
    (hoid : isValidObjectId payload.member_id = true) :
    scan2 mac secret W payload now db =
      (Except.ok "ok",
       { member := updateOneMember db.member payload.member_id
           (applyScanUpdate payload.action now),
         attendance := db.attendance ++
           [{ member_id := payload.member_id, action := payload.action,
              timestamp := now, created_at := now, updated_at := now }] }) := by
  unfold scan2
  have hcond : ¬(payload.action ≠ "IN" ∧ payload.action ≠ "OUT") := by
    rcases ha with h | h <;> simp [h]
  rw [if_neg hcond, hver]
  simp [oid, hoid]

/-- C4.  Accepted-scan effect: on a verified token for a registered member,
exactly one AttendanceEvent is appended — regardless of the member's prior
presence state — and the presence flag plus the per-action timestamp are
then updated (`IN ⇒ present, last_in`; `OUT ⇒ absent, last_out`).
A duplicate IN-while-Present or OUT-while-Absent is not rejected (`m0` is
unconstrained). -/
theorem accepted_scan_effect
    (mac : String → String → String) (secret : String) (W : Nat)
    (payload : AttendanceScan2) (now : Time) (db : DB) (m0 : MemberDoc)
    (ha : payload.action = "IN" ∨ payload.action = "OUT")
    (hreg : List.lookup payload.member_id db.member = some m0)
    (hoid : isValidObjectId payload.member_id = true)
    (hver : verify_token mac secret W payload.member_id payload.action
      payload.token now = Except.ok true) :
    ∃ db2, scan2 mac secret W payload now db = (Except.ok "ok", db2) ∧
      db2.attendance = db.attendance ++
        [{ member_id := payload.member_id, action := payload.action,
           timestamp := now, created_at := now, updated_at := now }] ∧
      ∃ m1, List.lookup payload.member_id db2.member = some m1 ∧
        (payload.action = "IN" → m1.present = true ∧ m1.last_in = some now) ∧
        (payload.action = "OUT" → m1.present = false ∧ m1.last_out = some now) := by
  rw [scan2_ok mac secret W payload now db ha hver hoid]
  refine ⟨_, rfl, rfl, applyScanUpdate payload.action now m0, ?_, ?_, ?_⟩
  · rw [lookup_updateOneMember_self, hreg]
    rfl
  · intro hIN
    simp [applyScanUpdate, hIN]
  · intro hOUT
    simp [applyScanUpdate, hOUT]

/-- Witness for C4: one registered member, duplicate-free state, IN scan. -/
theorem accepted_scan_effect_witness :
    ∃ db2, scan2 (fun _ m => m) "dev-secret" 10
        ⟨"aaaaaaaaaaaaaaaaaaaaaaaa", "IN", "aaaaaaaaaaaaaaaaaaaaaaaa:IN:100"⟩ 1005
        ⟨[("aaaaaaaaaaaaaaaaaaaaaaaa", ⟨"Alice", false, none, none, 0, 0⟩)], []⟩
      = (Except.ok "ok", db2) ∧
      db2.attendance = ([] : List AttendanceDoc) ++
        [⟨"aaaaaaaaaaaaaaaaaaaaaaaa", "IN", 1005, 1005, 1005⟩] ∧
      ∃ m1, List.lookup "aaaaaaaaaaaaaaaaaaaaaaaa" db2.member = some m1 ∧
        (("IN" : String) = "IN" → m1.present = true ∧ m1.last_in = some 1005) ∧
        (("IN" : String) = "OUT" → m1.present = false ∧ m1.last_out = some 1005) :=
  accepted_scan_effect (fun _ m => m) "dev-secret" 10
    ⟨"aaaaaaaaaaaaaaaaaaaaaaaa", "IN", "aaaaaaaaaaaaaaaaaaaaaaaa:IN:100"⟩ 1005
    ⟨[("aaaaaaaaaaaaaaaaaaaaaaaa", ⟨"Alice", false, none, none, 0, 0⟩)], []⟩
    ⟨"Alice", false, none, none, 0, 0⟩ (Or.inl rfl) rfl (by decide) rfl

/-- C10.  Frame condition on accepted scans: an accepted IN scan leaves
`last_out` and `name` unchanged, an accepted OUT scan leaves `last_in` and
`name` unchanged, and no member record other than `memberId` is modified. -/
theorem accepted_scan_frame
    (mac : String → String → String) (secret : String) (W : Nat)
    (payload : AttendanceScan2) (now : Time) (db : DB) (m0 : MemberDoc)
    (ha : payload.action = "IN" ∨ payload.action = "OUT")
    (hreg : List.lookup payload.member_id db.member = some m0)
    (hoid : isValidObjectId payload.member_id = true)
    (hver : verify_token mac secret W payload.member_id payload.action
      payload.token now = Except.ok true) :
    ∃ db2, scan2 mac secret W payload now db = (Except.ok "ok", db2) ∧
      (∃ m1, List.lookup payload.member_id db2.member = some m1 ∧
        m1.name = m0.name ∧
        (payload.action = "IN" → m1.last_out = m0.last_out) ∧
        (payload.action = "OUT" → m1.last_in = m0.last_in)) ∧
      (∀ k, k ≠ payload.member_id →
        List.lookup k db2.member = List.lookup k db.member) := by
  rw [scan2_ok mac secret W payload now db ha hver hoid]
  refine ⟨_, rfl, ⟨applyScanUpdate payload.action now m0, ?_, ?_, ?_, ?_⟩, ?_⟩
  · rw [lookup_updateOneMember_self, hreg]
    rfl
  · by_cases hIN : payload.action = "IN" <;> simp [applyScanUpdate, hIN]
  · intro hIN
    simp [applyScanUpdate, hIN]
  · intro hOUT
    simp [applyScanUpdate, hOUT]
  · intro k hk
    exact lookup_updateOneMember_other hk db.member _

/-- Witness for C10: same accepted IN scan as the C4 witness, watching the
untouched fields and a second registered member. -/
theorem accepted_scan_frame_witness :
    ∃ db2, scan2 (fun _ m => m) "dev-secret" 10
        ⟨"aaaaaaaaaaaaaaaaaaaaaaaa", "IN", "aaaaaaaaaaaaaaaaaaaaaaaa:IN:100"⟩ 1005
        ⟨[("aaaaaaaaaaaaaaaaaaaaaaaa", ⟨"Alice", false, none, some 42, 0, 0⟩),
          ("bbbbbbbbbbbbbbbbbbbbbbbb", ⟨"Bob", true, some 7, none, 0, 0⟩)], []⟩
      = (Except.ok "ok", db2) ∧
      (∃ m1, List.lookup "aaaaaaaaaaaaaaaaaaaaaaaa" db2.member = some m1 ∧
        m1.name = "Alice" ∧
        (("IN" : String) = "IN" → m1.last_out = some 42) ∧
        (("IN" : String) = "OUT" → m1.last_in = none)) ∧
      (∀ k, k ≠ "aaaaaaaaaaaaaaaaaaaaaaaa" →
        List.lookup k db2.member =
          List.lookup k
            [("aaaaaaaaaaaaaaaaaaaaaaaa",
                (⟨"Alice", false, none, some 42, 0, 0⟩ : MemberDoc)),
             ("bbbbbbbbbbbbbbbbbbbbbbbb", ⟨"Bob", true, some 7, none, 0, 0⟩)]) :=
  accepted_scan_frame (fun _ m => m) "dev-secret" 10
    ⟨"aaaaaaaaaaaaaaaaaaaaaaaa", "IN", "aaaaaaaaaaaaaaaaaaaaaaaa:IN:100"⟩ 1005
    ⟨[("aaaaaaaaaaaaaaaaaaaaaaaa", ⟨"Alice", false, none, some 42, 0, 0⟩),
      ("bbbbbbbbbbbbbbbbbbbbbbbb", ⟨"Bob", true, some 7, none, 0, 0⟩)], []⟩
    ⟨"Alice", false, none, some 42, 0, 0⟩ (Or.inl rfl) rfl (by decide) rfl

/-- C5 counterexample: the store holds no member at all, yet a scan for the
(unregistered but well-formed) id succeeds with no `MemberNotFoundError`
and appends an AttendanceEvent — `scan2` never checks registration. -/
theorem unknown_member_scan_succeeds :
    scan2 (fun _ m => m) SECRET TOKEN_WINDOW_SECONDS
      ⟨"aaaaaaaaaaaaaaaaaaaaaaaa", "IN", "aaaaaaaaaaaaaaaaaaaaaaaa:IN:100"⟩ 1005
      ⟨[], []⟩
    = (Except.ok "ok",
       ⟨[], [⟨"aaaaaaaaaaaaaaaaaaaaaaaa", "IN", 1005, 1005, 1005⟩]⟩) := rfl

/-- C5 amended: `recordScan` performs no registration check.  For an
unregistered memberId that is a well-formed ObjectId and a token that
verifies, the scan succeeds, appends exactly one AttendanceEvent, and
leaves the member collection untouched (the update matches no document);
`MemberNotFoundError` is never raised. -/
theorem unknown_member_scan_behavior
    (mac : String → String → String) (secret : String) (W : Nat)
    (payload : AttendanceScan2) (now : Time) (db : DB)
    (ha : payload.action = "IN" ∨ payload.action = "OUT")
    (hunreg : List.lookup payload.member_id db.member = none)
    (hoid : isValidObjectId payload.member_id = true)
    (hver : verify_token mac secret W payload.member_id payload.action
      payload.token now = Except.ok true) :
    scan2 mac secret W payload now db =
      (Except.ok "ok",
       { db with attendance := db.attendance ++
           [{ member_id := payload.member_id, action := payload.action,
              timestamp := now, created_at := now, updated_at := now }] }) := by
  rw [scan2_ok mac secret W payload now db ha hver hoid,
    updateOneMember_of_lookup_none hunreg]

/-- Witness for C5's amended statement (empty member collection). -/
theorem unknown_member_scan_behavior_witness :
    scan2 (fun _ m => m) "dev-secret" 10
      ⟨"ffffffffffffffffffffffff", "IN", "ffffffffffffffffffffffff:IN:100"⟩ 1005
      ⟨[], []⟩
    = (Except.ok "ok",
       ⟨[], [⟨"ffffffffffffffffffffffff", "IN", 1005, 1005, 1005⟩]⟩) :=
  unknown_member_scan_behavior (fun _ m => m) "dev-secret" 10
    ⟨"ffffffffffffffffffffffff", "IN", "ffffffffffffffffffffffff:IN:100"⟩ 1005
    ⟨[], []⟩ (Or.inl rfl) rfl (by decide) rfl

/-- C6.  Evaluation at the failing input: for a memberId that is not a valid
ObjectId, a verified scan first commits the attendance insert and only then
fails HTTP 400 in `oid` — the event stays committed while the presence
update never runs, so the two writes are not one failure domain. -/
theorem scan_partial_commit :
    scan2 (fun _ m => m) SECRET TOKEN_WINDOW_SECONDS
      ⟨"m1", "IN", "m1:IN:100"⟩ 1005 ⟨[], []⟩
    = (Except.error (ApiError.http 400 "Invalid member id"),
       ⟨[], [⟨"m1", "IN", 1005, 1005, 1005⟩]⟩) := rfl

/-- C7.  Evaluation at the failing input: `hmac.compare_digest` on `str`
raises `TypeError` when the presented token contains a non-ASCII character,
so `verify_token` raises (HTTP 500) instead of returning false. -/
theorem verify_nonascii_raises :
    verify_token (fun _ m => m) SECRET TOKEN_WINDOW_SECONDS "m1" "IN" "é" 1005
      = Except.error ApiError.typeError := rfl

/-- C8.  Action validation in `generate_token`: it fails with
`InvalidActionError` (HTTP 400, "Invalid action") exactly when the action is
neither IN nor OUT, and for IN or OUT it returns a token and never raises. -/
theorem generate_action_validation
    (mac : String → String → String) (secret : String) (W : Nat)
    (member_id action : String) (now : Nat) :
    (generate_token mac secret W member_id action now
        = Except.error (ApiError.http 400 "Invalid action")
      ↔ action ≠ "IN" ∧ action ≠ "OUT") ∧
    (action = "IN" ∨ action = "OUT" →
      generate_token mac secret W member_id action now
        = Except.ok (mac secret (message member_id action ((now / W : Nat) : Int)))) := by
  constructor
  · by_cases hc : action ≠ "IN" ∧ action ≠ "OUT"
    · simp only [generate_token, if_pos hc]
      exact ⟨fun _ => hc, fun _ => trivial⟩
    · constructor
      · intro h
        rw [generate_token, if_neg hc] at h
        simp at h
      · intro h
        exact absurd h hc
  · intro h
    have hc : ¬(action ≠ "IN" ∧ action ≠ "OUT") := by
      rcases h with h | h <;> simp [h]
    rw [generate_token, if_neg hc]

/-- C9 counterexample: the original claim bounds the result by `limit` for
every limit, but at `limit = 0` pymongo applies no limit, so the endpoint
returns all of the member's events — here one event, exceeding the claimed
bound of zero. -/
theorem listEvents_limit_zero_counterexample :
    (member_attendance ⟨[], [⟨"m1", "IN", 1005, 1005, 1005⟩]⟩ "m1" 0).1
      = [⟨"m1", "IN", 1005, 1005, 1005⟩] ∧
    ¬((member_attendance ⟨[], [⟨"m1", "IN", 1005, 1005, 1005⟩]⟩ "m1" 0).1.length
        ≤ 0) := by
  constructor
  · simp [member_attendance]
  · simp [member_attendance]

/-- C9, amended.  `listEvents` ordering and bound: the returned events are
the given member's, most-recent-first by event timestamp, and the database
state is untouched; for positive `limit` at most `limit` events are
returned, while `limit = 0` means no limit (pymongo semantics) and returns
all of the member's events. -/
theorem listEvents_spec (db : DB) (member_id : String) (limit : Nat) :
    (member_attendance db member_id limit).1.Pairwise
        (fun a b => b.timestamp ≤ a.timestamp) ∧
    (0 < limit → (member_attendance db member_id limit).1.length ≤ limit) ∧
    (limit = 0 → (member_attendance db member_id limit).1.length
      = (db.attendance.filter (fun r => r.member_id == member_id)).length) ∧
    (∀ e ∈ (member_attendance db member_id limit).1, e.member_id = member_id) ∧
    (member_attendance db member_id limit).2 = db := by
  have hs : ((db.attendance.filter (fun r => r.member_id == member_id)).mergeSort
      (fun a b => decide (b.timestamp ≤ a.timestamp))).Pairwise
      (fun a b : AttendanceDoc => decide (b.timestamp ≤ a.timestamp) = true) :=
    @List.sorted_mergeSort AttendanceDoc
      (fun a b => decide (b.timestamp ≤ a.timestamp))
      (fun a b c h1 h2 =>
        decide_eq_true (Nat.le_trans (of_decide_eq_true h2) (of_decide_eq_true h1)))
      (fun a b => by
        rcases Nat.le_total b.timestamp a.timestamp with h | h <;> simp [h])
      (db.attendance.filter (fun r => r.member_id == member_id))
  have hp : ((db.attendance.filter (fun r => r.member_id == member_id)).mergeSort
      (fun a b => decide (b.timestamp ≤ a.timestamp))).Pairwise
      (fun a b : AttendanceDoc => b.timestamp ≤ a.timestamp) :=
    hs.imp (fun h => of_decide_eq_true h)
  refine ⟨?_, ?_, ?_, ?_, rfl⟩
  · by_cases h0 : limit = 0
    · simpa [member_attendance, h0] using hp
    · simpa [member_attendance, h0] using hp.sublist (List.take_sublist _ _)
  · intro hpos
    have h0 : ¬ limit = 0 := by omega
    simp only [member_attendance, if_neg h0]
    rw [List.length_take]
    exact Nat.min_le_left _ _
  · intro h0
    simp only [member_attendance, if_pos h0]
    exact List.length_mergeSort _
  · intro e he
    have h1 : e ∈ (db.attendance.filter (fun r => r.member_id == member_id)).mergeSort
        (fun a b => decide (b.timestamp ≤ a.timestamp)) := by
      by_cases h0 : limit = 0
      · simpa [member_attendance, h0] using he
      · exact List.mem_of_mem_take (by simpa [member_attendance, h0] using he)
    have h2 := List.mem_mergeSort.mp h1
    have h3 := List.mem_filter.mp h2
    exact beq_iff_eq.mp h3.2

end Attendance
